import Mathlib

/-!
Verification of the text-annotation pipeline of the Chinese article learner
(server-side module `server/src/services/ai.ts`, the file defining
`generateSummary`, `processSentences`, `extractVocabulary`, `getPinyin` and
`translateText`).

The module is string processing plus sequential calls to three external
services (a Chinese-to-pinyin transliteration library, a general translation
service, and an LLM chat service).  The embedding below translates the string
processing verbatim and models each external service as an explicit function
argument (an oracle), with `Option`/a dedicated result type marking the
"the call threw" outcome that the TypeScript code catches.  JavaScript
strings are modelled as Lean `String`/`List Char`; every character relevant
to the pipeline (CJK punctuation, pinyin diacritics) lies in the basic
multilingual plane, where JavaScript's UTF-16 code units coincide with code
points, so per-character operations agree.
-/

namespace ArticleLearner

/-- Primary sentence-ending punctuation, the capture class of the regex
`/([。！？])/` used by `processSentences`. -/
def isPrimaryPunct (c : Char) : Bool :=
  c == '。' || c == '！' || c == '？'

/-- Secondary delimiters, the class of the regex `/[，；]/` used by the
comma/semicolon fallback of `processSentences`. -/
def isSecondaryDelim (c : Char) : Bool :=
  c == '，' || c == '；'

/-- The set of characters removed by JavaScript `String.prototype.trim`:
ECMAScript WhiteSpace (TAB, VT, FF, SP, NBSP, ZWNBSP and the Unicode
space separators) together with the line terminators LF, CR, LS, PS. -/
def isJsWhitespace (c : Char) : Bool :=
  let n := c.toNat
  n == 0x9 || n == 0xA || n == 0xB || n == 0xC || n == 0xD || n == 0x20 ||
  n == 0xA0 || n == 0x1680 || (0x2000 ≤ n && n ≤ 0x200A) ||
  n == 0x2028 || n == 0x2029 || n == 0x202F || n == 0x205F ||
  n == 0x3000 || n == 0xFEFF

/-- JavaScript `String.prototype.trim` on a character list: drop
JS whitespace from both ends. -/
def trimChars (l : List Char) : List Char :=
  ((l.dropWhile isJsWhitespace).reverse.dropWhile isJsWhitespace).reverse

/-- JavaScript `String.prototype.trim` at `String` level. -/
def jsTrim (s : String) : String :=
  String.mk (trimChars s.data)

/-- The Chinese-character classifier of `processSentences` (`isChineseChar`):
code-point membership in the CJK Unified Ideographs block, Extension A, or
Extension B. -/
def isChineseChar (c : Char) : Bool :=
  let code := c.toNat
  (0x4E00 ≤ code && code ≤ 0x9FFF) ||
  (0x3400 ≤ code && code ≤ 0x4DBF) ||
  (0x20000 ≤ code && code ≤ 0x2A6DF)

/-- JavaScript `chineseText.split(/([。！？])/)` with its capturing group,
presented as text/delimiter pairs: the JS call returns an odd-length
alternating list `text, delim, text, delim, …, text`; pairing consecutive
entries (the way the recombination loop of `processSentences` reads them,
`parts[i]` and `parts[i+1]`) gives one `(text, some delim)` pair per
delimiter occurrence plus a final `(text, none)` pair for the trailing
text, which the loop reads with `parts[i + 1] || ''`. -/
def splitPairs : List Char → List (List Char × Option Char)
  | [] => [([], none)]
  | c :: rest =>
    if isPrimaryPunct c then
      ([], some c) :: splitPairs rest
    else
      match splitPairs rest with
      | [] => [([c], none)]
      | (t, p) :: ps => ((c :: t), p) :: ps

/-- The recombination loop of `processSentences` (`for i … i += 2`):
for each text/delimiter pair, trim the text; if the trimmed text is
non-empty push `text + punct`, otherwise push nothing. -/
def recombine (ps : List (List Char × Option Char)) : List (List Char) :=
  ps.filterMap (fun tp =>
    if (trimChars tp.1).isEmpty then none
    else some (trimChars tp.1 ++ tp.2.toList))

/-- JavaScript `chineseText.split(/[，；]/)` (no capturing group):
segments between secondary delimiters, delimiters removed, empty segments
kept. -/
def splitOnSecondary : List Char → List (List Char)
  | [] => [[]]
  | c :: rest =>
    if isSecondaryDelim c then
      [] :: splitOnSecondary rest
    else
      match splitOnSecondary rest with
      | [] => [[c]]
      | t :: ts => (c :: t) :: ts

/-- The sentence-segmentation part of `processSentences` (the code from
`const sentenceDelimiters = /([。！？])/` up to the end of the comma
fallback): primary split and recombination; if that yields no sentences and
the trimmed input is non-empty, split on `，`/`；` when that produces more
than one part (trimming each part and discarding empties), otherwise use the
whole trimmed input as the single sentence. -/
def segmentText (s : List Char) : List (List Char) :=
  let sentences := recombine (splitPairs s)
  if sentences.isEmpty && !(trimChars s).isEmpty then
    let commaParts := splitOnSecondary s
    if commaParts.length > 1 then
      (commaParts.map trimChars).filter (fun t => !t.isEmpty)
    else
      [trimChars s]
  else
    sentences

/-- The segmenter `segmentText` at `String` level: the ordered sequence of sentence
strings that `processSentences` iterates over. -/
def segment (s : String) : List String :=
  (segmentText s.data).map String.mk

/-- A character accepted by the character class of the pinyin post-filter
regex `/^[a-zA-Zāáǎàēéěèīíǐìōóǒòūúǔùǖǘǚǜü]+$/`. -/
def isPinyinChar (c : Char) : Bool :=
  ('a' ≤ c && c ≤ 'z') || ('A' ≤ c && c ≤ 'Z') ||
  c == 'ā' || c == 'á' || c == 'ǎ' || c == 'à' ||
  c == 'ē' || c == 'é' || c == 'ě' || c == 'è' ||
  c == 'ī' || c == 'í' || c == 'ǐ' || c == 'ì' ||
  c == 'ō' || c == 'ó' || c == 'ǒ' || c == 'ò' ||
  c == 'ū' || c == 'ú' || c == 'ǔ' || c == 'ù' ||
  c == 'ǖ' || c == 'ǘ' || c == 'ǚ' || c == 'ü' || c == 'ǜ'

/-- The pinyin post-filter `isPinyin` of `processSentences`:
`/^[a-zA-Zāáǎàēéěèīíǐìōóǒòūúǔùǖǘǚǜü]+$/.test(s) && s.length <= 6`.
All accepted characters are in the basic multilingual plane, so the
JavaScript UTF-16 `length` equals the code-point count whenever the regex
test succeeds; the conjunction short-circuits exactly as in the source. -/
def isPinyinToken (t : String) : Bool :=
  !t.isEmpty && t.data.all isPinyinChar && decide (t.length ≤ 6)

/-- Result of one call to the transliteration library `pinyinFn`:
`none` models a thrown exception; `some rows` is the returned array of
per-unit candidate arrays. -/
def PinyinService : Type := String → Option (List (List String))

/-- The pinyin-annotation block of `processSentences` (the `try`/`catch`
around `pinyinFn`): on a throw the sentence's pinyin is the empty string;
otherwise take each row's first candidate (`p[0] || ''`), keep only tokens
passing `isPinyin`, and join with single spaces. -/
def annotate (pin : PinyinService) (sentence : String) : String :=
  match pin sentence with
  | none => ""
  | some rows =>
    String.intercalate " "
      ((rows.map (fun r => r.headD "")).filter isPinyinToken)

/-- Result of one call to the general translation service (`translate`):
`none` models a thrown exception, `some t` the `translation.text` field. -/
def TranslateService : Type := String → Option String

/-- The `Sentence` interface of the source module. -/
structure Sentence where
  chinese : String
  pinyin : String
  english : String
deriving DecidableEq, Repr

/-- Embedding of `processSentences`: segment the text, then for each sentence produce its
record, with the pinyin `try`/`catch` collapsing a transliteration throw to
`""` and the translation `try`/`catch` collapsing a translation throw to
`"(Translation unavailable)"`. -/
def processSentences (pin : PinyinService) (tr : TranslateService)
    (chineseText : String) : List Sentence :=
  (segment chineseText).map (fun sentence =>
    ⟨sentence,
     annotate pin sentence,
     match tr sentence with
     | some t => t
     | none => "(Translation unavailable)"⟩)

/-- Outcome of one Azure OpenAI chat-completion call:
`failure` models a thrown exception (network, auth, …); `success content`
models a completed call whose `choices[0]?.message?.content` chain is
`content` (`none` when any link of the optional chain is absent). -/
inductive ChatResult where
  | failure : ChatResult
  | success : Option String → ChatResult

/-- The module-level `azureOpenAI` client: `none` when the endpoint or key
environment variable is unset (the client is `null` and no call is ever
attempted), `some call` otherwise, where `call` maps the input text to the
outcome of the chat-completion request built from it. -/
def AzureClient : Type := Option (String → ChatResult)

/-- Embedding of `generateSummary`: unconfigured client short-circuits to the fixed
"not configured" string; a throw is caught to `'Summary generation failed'`;
a successful call returns `content?.trim() || 'Summary generation failed'`. -/
def generateSummary (azure : AzureClient) (chineseText : String) : String :=
  match azure with
  | none => "Summary not available (Azure OpenAI not configured)"
  | some call =>
    match call chineseText with
    | ChatResult.failure => "Summary generation failed"
    | ChatResult.success content =>
      let t := match content with
               | none => ""
               | some c => jsTrim c
      if t == "" then "Summary generation failed" else t

/-- JSON values, the possible results of JavaScript `JSON.parse`. -/
inductive Json where
  | null : Json
  | bool : Bool → Json
  | num : Int → Json
  | str : String → Json
  | arr : List Json → Json
  | obj : List (String × Json) → Json

/-- The code-fence stripping of `extractVocabulary`:
JavaScript `text.replace(/```json\n?|\n?```/g, '')`.  The scan tries, at
each position, the first alternative `` ```json `` with an optional
following newline, then the second alternative `` ``` `` with an optional
preceding newline, and resumes after the (empty) replacement. -/
def stripFencesGo : Nat → List Char → List Char
  | _, [] => []
  | 0, l => l
  | fuel + 1, c :: rest =>
    if ("```json".data ++ ['\n']).isPrefixOf (c :: rest) then
      stripFencesGo fuel (rest.drop 7)
    else if ("```json".data).isPrefixOf (c :: rest) then
      stripFencesGo fuel (rest.drop 6)
    else if ('\n' :: "```".data).isPrefixOf (c :: rest) then
      stripFencesGo fuel (rest.drop 3)
    else if ("```".data).isPrefixOf (c :: rest) then
      stripFencesGo fuel (rest.drop 2)
    else
      c :: stripFencesGo fuel rest

/-- Fence stripping with the fuel fixed to the input length.  Every step of
`stripFencesGo` consumes at least one character, so `l.length` units of fuel
always suffice and the fuel-exhausted branch is unreachable: the function
computes exactly the JavaScript global replace described above. -/
def stripFencesAux (l : List Char) : List Char :=
  stripFencesGo l.length l

/-- The fence strip `stripFencesAux` at `String` level. -/
def stripFences (s : String) : String :=
  String.mk (stripFencesAux s.data)

/-- The string handed to `JSON.parse` by `extractVocabulary` for a given
response content: `text = content?.trim() || '[]'`, then the code-fence
strip, then a final trim. -/
def responseJsonStr (content : Option String) : String :=
  let text := match content with
              | none => "[]"
              | some c => if jsTrim c == "" then "[]" else jsTrim c
  jsTrim (stripFences text)

/-- The behaviour of JavaScript `JSON.parse` as an oracle: `none` models a
thrown `SyntaxError` (caught by `extractVocabulary`'s `try`), `some v` the
parsed value.  The source performs no validation beyond this parse. -/
def JsonParse : Type := String → Option Json

/-- Embedding of `extractVocabulary`: unconfigured client returns `[]`; a thrown call or
a `JSON.parse` throw is caught to `[]`; otherwise the parsed JSON value is
returned as-is (the TypeScript merely casts it to `VocabularyItem[]`). -/
def extractVocabulary (azure : AzureClient) (parse : JsonParse)
    (chineseText : String) : Json :=
  match azure with
  | none => Json.arr []
  | some call =>
    match call chineseText with
    | ChatResult.failure => Json.arr []
    | ChatResult.success content =>
      match parse (responseJsonStr content) with
      | none => Json.arr []
      | some v => v

/-- Modelled from the spec: an object field named `name` holding a JSON
string, part of the `VocabularyItem` shape (fields `chinese`, `pinyin`,
`english`, `example`, `emoji`).  Used only to state what "matching the
expected shape" means; the source contains no such check. -/
def hasStringField (fields : List (String × Json)) (name : String) : Bool :=
  fields.any (fun f =>
    f.1 == name && (match f.2 with | Json.str _ => true | _ => false))

/-- Modelled from the spec: a JSON value matching the `VocabularyItem`
object shape. -/
def isVocabItemShape : Json → Bool
  | Json.obj fields =>
    (["chinese", "pinyin", "english", "example", "emoji"]).all
      (hasStringField fields)
  | _ => false

/-- Modelled from the spec: a JSON value matching the expected
array-of-`VocabularyItem` shape. -/
def isVocabArrayShape : Json → Bool
  | Json.arr items => items.all isVocabItemShape
  | _ => false

/-- Embedding of `translateText`: when the Azure client is configured, the source locale
starts with `zh` and the target is `en`, try the chat service first and
return its trimmed content if non-empty; in every other case (unconfigured,
other locales, thrown chat call, empty content) fall through to the general
translation service, whose thrown call is caught to `''`. -/
def translateText (azure : AzureClient)
    (google : String → String → String → Option String)
    (text source target : String) : String :=
  let googleStep : String :=
    match google text source target with
    | some r => r
    | none => ""
  match azure with
  | none => googleStep
  | some call =>
    if source.startsWith "zh" && target == "en" then
      match call text with
      | ChatResult.failure => googleStep
      | ChatResult.success content =>
        match content with
        | none => googleStep
        | some c => if jsTrim c == "" then googleStep else jsTrim c
    else
      googleStep

end ArticleLearner

namespace ArticleLearner

/-! ### Helper lemmas about trimming and splitting -/

/-- An element whose predicate is false is kept by `dropWhile`. -/
theorem mem_dropWhile_of_mem {p : Char → Bool} {l : List Char} {c : Char}
    (hc : c ∈ l) (hp : p c = false) : c ∈ l.dropWhile p := by
  induction l with
  | nil => cases hc
  | cons a l ih =>
    by_cases ha : p a
    · rw [List.dropWhile_cons_of_pos ha]
      rcases List.mem_cons.mp hc with rfl | h
      · rw [hp] at ha; cases ha
      · exact ih h
    · rw [List.dropWhile_cons_of_neg ha]
      exact hc

/-- Dropping a satisfied-everywhere predicate consumes the whole list. -/
theorem dropWhile_nil_of_all {p : Char → Bool} {l : List Char}
    (h : ∀ c ∈ l, p c = true) : l.dropWhile p = [] := by
  induction l with
  | nil => rfl
  | cons a l ih =>
    rw [List.dropWhile_cons_of_pos (h a (List.mem_cons_self a l))]
    exact ih (fun c hc => h c (List.mem_cons_of_mem a hc))

/-- A whitespace-only list trims to the empty list. -/
theorem all_ws_trim_nil {l : List Char}
    (h : ∀ c ∈ l, isJsWhitespace c = true) : trimChars l = [] := by
  unfold trimChars
  rw [dropWhile_nil_of_all h]
  rfl

/-- A list containing a non-whitespace character has a non-empty trim. -/
theorem trim_ne_nil_of_mem {l : List Char} {c : Char} (hc : c ∈ l)
    (hw : isJsWhitespace c = false) : trimChars l ≠ [] := by
  unfold trimChars
  intro h
  have h2 := List.reverse_eq_nil_iff.mp h
  have hc1 : c ∈ (l.dropWhile isJsWhitespace).reverse :=
    List.mem_reverse.mpr (mem_dropWhile_of_mem hc hw)
  have hc2 := mem_dropWhile_of_mem hc1 hw
  rw [h2] at hc2
  cases hc2

/-- Membership survives dropping a prefix. -/
theorem mem_of_mem_dropWhile {p : Char → Bool} {l : List Char} {c : Char}
    (hc : c ∈ l.dropWhile p) : c ∈ l := by
  induction l with
  | nil => exact hc
  | cons a l ih =>
    by_cases ha : p a
    · rw [List.dropWhile_cons_of_pos ha] at hc
      exact List.mem_cons_of_mem a (ih hc)
    · rw [List.dropWhile_cons_of_neg ha] at hc
      exact hc

/-- Every character of the trim comes from the original list. -/
theorem mem_of_mem_trim {l : List Char} {c : Char}
    (hc : c ∈ trimChars l) : c ∈ l := by
  unfold trimChars at hc
  have h1 := List.mem_reverse.mp hc
  have h2 := mem_of_mem_dropWhile h1
  have h3 := List.mem_reverse.mp h2
  exact mem_of_mem_dropWhile h3

/-- Whitespace characters are not primary punctuation. -/
theorem ws_not_primary {c : Char} (h : isJsWhitespace c = true) :
    isPrimaryPunct c = false := by
  cases hp : isPrimaryPunct c with
  | false => rfl
  | true =>
    exfalso
    simp only [isPrimaryPunct, Bool.or_eq_true, beq_iff_eq] at hp
    rcases hp with (rfl | rfl) | rfl <;> exact absurd h (by decide)

/-- Secondary delimiters are not primary punctuation. -/
theorem secondary_not_primary {c : Char} (h : isSecondaryDelim c = true) :
    isPrimaryPunct c = false := by
  simp only [isSecondaryDelim, Bool.or_eq_true, beq_iff_eq] at h
  rcases h with rfl | rfl <;> rfl

/-- On input without primary punctuation the capture-group split returns the
whole text as its single segment, with no terminating delimiter. -/
theorem no_primary_splitPairs {l : List Char}
    (h : ∀ c ∈ l, isPrimaryPunct c = false) :
    splitPairs l = [(l, none)] := by
  induction l with
  | nil => rfl
  | cons a l ih =>
    have ha : isPrimaryPunct a = false := h a (List.mem_cons_self a l)
    have ihl := ih (fun c hc => h c (List.mem_cons_of_mem a hc))
    simp [splitPairs, ha, ihl]

end ArticleLearner

namespace ArticleLearner

/-! ### C7, C10 — summarizer error handling -/

/-- C7: `Summarize` never raises (the embedding is a total function whose
`catch` branches are the explicit placeholder results): with the service
unconfigured it returns the fixed "not configured" placeholder — the result
is a constant, so no call is attempted — and on a thrown call it returns the
fixed "Summary generation failed" placeholder. -/
theorem generateSummary_placeholders (text : String)
    (call : String → ChatResult) :
    generateSummary none text =
      "Summary not available (Azure OpenAI not configured)"
    ∧ (call text = ChatResult.failure →
       generateSummary (some call) text = "Summary generation failed") := by
  constructor
  · rfl
  · intro h
    simp [generateSummary, h]

def callFailC7 : String → ChatResult := fun _ => ChatResult.failure

/-- C7 witness: the placeholder behaviour at a concrete input and a concrete
failing service. -/
theorem generateSummary_placeholders_witness :
    callFailC7 "你好" = ChatResult.failure
    ∧ generateSummary none "你好" =
        "Summary not available (Azure OpenAI not configured)"
    ∧ generateSummary (some callFailC7) "你好" = "Summary generation failed" :=
  ⟨rfl, (generateSummary_placeholders "你好" callFailC7).1,
   (generateSummary_placeholders "你好" callFailC7).2 rfl⟩

/-- C10: a successful summarization call whose message content is absent or
whitespace-only yields the very same fixed "Summary generation failed"
placeholder as a thrown call, so the caller cannot distinguish the two. -/
theorem generateSummary_empty_content_failure
    (call callF : String → ChatResult) (text : String)
    (content : Option String)
    (hs : call text = ChatResult.success content)
    (hws : ∀ c, content = some c → jsTrim c = "")
    (hf : callF text = ChatResult.failure) :
    generateSummary (some call) text = "Summary generation failed"
    ∧ generateSummary (some call) text = generateSummary (some callF) text := by
  have h1 : generateSummary (some call) text = "Summary generation failed" := by
    cases content with
    | none => simp [generateSummary, hs]
    | some c =>
      have hc := hws c rfl
      simp [generateSummary, hs, hc]
  exact ⟨h1, by rw [h1]; simp [generateSummary, hf]⟩

def callEmptyC10 : String → ChatResult :=
  fun _ => ChatResult.success (some "  ")

def callFailC10 : String → ChatResult := fun _ => ChatResult.failure

/-- C10 witness: whitespace-only content and a thrown call at a concrete
input produce the identical placeholder. -/
theorem generateSummary_empty_content_failure_witness :
    callEmptyC10 "文" = ChatResult.success (some "  ")
    ∧ jsTrim "  " = ""
    ∧ callFailC10 "文" = ChatResult.failure
    ∧ generateSummary (some callEmptyC10) "文" = "Summary generation failed"
    ∧ generateSummary (some callEmptyC10) "文" =
        generateSummary (some callFailC10) "文" :=
  ⟨rfl, by decide, rfl,
   (generateSummary_empty_content_failure callEmptyC10 callFailC10 "文"
      (some "  ") rfl
      (fun c hc => Option.some.inj hc ▸ (by decide : jsTrim "  " = ""))
      rfl).1,
   (generateSummary_empty_content_failure callEmptyC10 callFailC10 "文"
      (some "  ") rfl
      (fun c hc => Option.some.inj hc ▸ (by decide : jsTrim "  " = ""))
      rfl).2⟩

end ArticleLearner

namespace ArticleLearner

/-! ### C6, C1 — vocabulary extractor error handling -/

/-- C6: `ExtractVocabulary` never raises (total embedding) and returns the
empty array when the service is unconfigured (the result is a constant — no
call is attempted), when the call throws, and when the response text, after
the code-fence strip, is not parseable JSON (`JSON.parse` throws). -/
theorem extractVocabulary_empty_on_failure
    (parse : JsonParse) (text : String) (call : String → ChatResult)
    (content : Option String) :
    extractVocabulary none parse text = Json.arr []
    ∧ (call text = ChatResult.failure →
       extractVocabulary (some call) parse text = Json.arr [])
    ∧ (call text = ChatResult.success content →
       parse (responseJsonStr content) = none →
       extractVocabulary (some call) parse text = Json.arr []) := by
  refine ⟨rfl, ?_, ?_⟩
  · intro h
    simp [extractVocabulary, h]
  · intro h hp
    simp [extractVocabulary, h, hp]

def parseC6 : JsonParse := fun _ => none

def callFailC6 : String → ChatResult := fun _ => ChatResult.failure

def callBadC6 : String → ChatResult :=
  fun _ => ChatResult.success (some "not json")

/-- C6 witness: a failing call and an unparseable response at concrete
inputs both produce the empty array. -/
theorem extractVocabulary_empty_on_failure_witness :
    callFailC6 "文" = ChatResult.failure
    ∧ extractVocabulary (some callFailC6) parseC6 "文" = Json.arr []
    ∧ callBadC6 "文" = ChatResult.success (some "not json")
    ∧ parseC6 (responseJsonStr (some "not json")) = none
    ∧ extractVocabulary (some callBadC6) parseC6 "文" = Json.arr [] :=
  ⟨rfl,
   (extractVocabulary_empty_on_failure parseC6 "文" callFailC6
      (some "not json")).2.1 rfl,
   rfl, rfl,
   (extractVocabulary_empty_on_failure parseC6 "文" callBadC6
      (some "not json")).2.2 rfl rfl⟩

def callC1 : String → ChatResult := fun _ => ChatResult.success (some "[1]")

/-- The behaviour of `JSON.parse` at the single input exercised by the C1
counterexample: the text "[1]" genuinely parses to the JSON array `[1]`. -/
def parseC1 : JsonParse :=
  fun s => if s == "[1]" then some (Json.arr [Json.num 1]) else none

/-- C1 counterexample: a response whose text parses as JSON but is not an
array of `VocabularyItem` objects (the array `[1]`) is returned by
`extractVocabulary` unchanged — a malformed result — not replaced by the
empty list, refuting the claim that any field-shape mismatch is treated as
failure. -/
theorem extractVocabulary_shape_unchecked_cex :
    extractVocabulary (some callC1) parseC1 "文" = Json.arr [Json.num 1]
    ∧ isVocabArrayShape (Json.arr [Json.num 1]) = false
    ∧ Json.arr [Json.num 1] ≠ Json.arr [] := by
  refine ⟨rfl, rfl, ?_⟩
  intro h
  exact List.noConfusion (Json.arr.inj h)

/-- C1 amended: `extractVocabulary` validates nothing beyond
JSON-parseability — whenever the call succeeds with non-empty trimmed
content whose fence-stripped text parses as JSON, the parsed value is
returned as-is, whatever its shape; the empty list arises only from a
missing client, a thrown call, or unparseable JSON. -/
theorem extractVocabulary_json_passthrough
    (call : String → ChatResult) (parse : JsonParse) (text : String)
    (content : Option String) (v : Json)
    (hs : call text = ChatResult.success content)
    (hp : parse (responseJsonStr content) = some v) :
    extractVocabulary (some call) parse text = v := by
  simp [extractVocabulary, hs, hp]

/-- C1 witness: the pass-through at the counterexample's concrete input. -/
theorem extractVocabulary_json_passthrough_witness :
    callC1 "文" = ChatResult.success (some "[1]")
    ∧ parseC1 (responseJsonStr (some "[1]")) = some (Json.arr [Json.num 1])
    ∧ extractVocabulary (some callC1) parseC1 "文" = Json.arr [Json.num 1] :=
  ⟨rfl, rfl,
   extractVocabulary_json_passthrough callC1 parseC1 "文" (some "[1]")
     (Json.arr [Json.num 1]) rfl rfl⟩

end ArticleLearner

namespace ArticleLearner

/-! ### C4 — translation error handling -/

def googleFailC4 : String → String → String → Option String :=
  fun _ _ _ => none

/-- C4 counterexample: with the chat client unconfigured and the general
translation service throwing, the standalone `translateText` returns the
empty string, not the "(Translation unavailable)" placeholder the claim
asserts for every failing translation entry point. -/
theorem translateText_failure_empty_cex :
    translateText none googleFailC4 "好" "zh-CN" "en" = ""
    ∧ "" ≠ "(Translation unavailable)" :=
  ⟨rfl, by decide⟩

/-- C4 amended: neither translation entry point raises (both embeddings are
total, the `catch` branches being explicit results); the per-sentence
translation inside `processSentences` yields the fixed
"(Translation unavailable)" placeholder when the service throws, while the
standalone `translateText` yields the empty string when its whole fallback
chain fails — both when the chat client is unconfigured and when the chat
call throws with the general service also throwing. -/
theorem translation_failure_placeholders
    (pin : PinyinService) (tr : TranslateService) (s : String)
    (google : String → String → String → Option String)
    (call : String → ChatResult) (text source target : String) :
    (∀ r ∈ processSentences pin tr s,
       tr r.chinese = none → r.english = "(Translation unavailable)")
    ∧ (google text source target = none →
       translateText none google text source target = "")
    ∧ (google text source target = none →
       call text = ChatResult.failure →
       translateText (some call) google text source target = "") := by
  refine ⟨?_, ?_, ?_⟩
  · intro r hr hnone
    simp only [processSentences, List.mem_map] at hr
    obtain ⟨sent, _, rfl⟩ := hr
    simp only at hnone
    simp [hnone]
  · intro hg
    simp [translateText, hg]
  · intro hg hc
    by_cases hzh : (source.startsWith "zh" && target == "en") = true
    · simp [translateText, hg, hc, hzh]
    · simp [translateText, hg, hc, hzh]

def trFailC4 : TranslateService := fun _ => none

def pinC4 : PinyinService := fun _ => some [["nǐ"], ["hǎo"]]

def callFailC4 : String → ChatResult := fun _ => ChatResult.failure

/-- C4 witness: the per-sentence placeholder and both standalone
empty-string outcomes at concrete inputs. -/
theorem translation_failure_placeholders_witness :
    (Sentence.mk "你好。" "nǐ hǎo" "(Translation unavailable)") ∈
        processSentences pinC4 trFailC4 "你好。"
    ∧ trFailC4 "你好。" = none
    ∧ (Sentence.mk "你好。" "nǐ hǎo" "(Translation unavailable)").english =
        "(Translation unavailable)"
    ∧ googleFailC4 "好" "zh-CN" "en" = none
    ∧ translateText none googleFailC4 "好" "zh-CN" "en" = ""
    ∧ callFailC4 "好" = ChatResult.failure
    ∧ translateText (some callFailC4) googleFailC4 "好" "zh-CN" "en" = "" :=
  ⟨by decide, rfl,
   (translation_failure_placeholders pinC4 trFailC4 "你好。" googleFailC4
      callFailC4 "好" "zh-CN" "en").1 _ (by decide) rfl,
   rfl,
   (translation_failure_placeholders pinC4 trFailC4 "你好。" googleFailC4
      callFailC4 "好" "zh-CN" "en").2.1 rfl,
   rfl,
   (translation_failure_placeholders pinC4 trFailC4 "你好。" googleFailC4
      callFailC4 "好" "zh-CN" "en").2.2 rfl rfl⟩

end ArticleLearner

namespace ArticleLearner

/-! ### C5 — pinyin post-filter -/

def pinC5x : PinyinService := fun _ => some [["hi"], ["nǐ"]]

/-- C5 counterexample: a pass-through untransliterated Latin run ("hi",
returned as its own unit by the transliteration service) is retained by the
post-filter — it is pure Latin letters of length ≤ 6 — and appears in the
annotator's output, refuting the claim's assertion that untransliterated
Latin text is discarded. -/
theorem annotate_latin_retained_cex :
    annotate pinC5x "hi你" = "hi nǐ"
    ∧ isPinyinToken "hi" = true :=
  ⟨rfl, rfl⟩

/-- C5 amended: every token retained by the post-filter is a non-empty run
of Latin letters or recognized pinyin diacritic vowels of length at most 6
(numerals, punctuation runs, and any unit failing that pattern — though not
pure-Latin runs of ≤ 6 letters, which are indistinguishable from pinyin and
retained — are discarded), the output joins the retained tokens with single
spaces, the retained count never exceeds the number of units the service
returned, and for a response of one unit per character of "你好吗？" whose
fourth unit is the pass-through "？", at most 3 tokens are retained. -/
theorem annotate_token_filter
    (pin : PinyinService) (s : String) (rows : List (List String))
    (toks : List String)
    (hpin : pin s = some rows)
    (htoks : toks = (rows.map (fun r => r.headD "")).filter isPinyinToken) :
    annotate pin s = String.intercalate " " toks
    ∧ (∀ t ∈ toks,
        (!t.isEmpty && t.data.all isPinyinChar) = true ∧ t.length ≤ 6)
    ∧ toks.length ≤ rows.length
    ∧ (∀ r1 r2 r3, rows = [r1, r2, r3, ["？"]] → toks.length ≤ 3) := by
  subst htoks
  refine ⟨by simp [annotate, hpin], ?_, ?_, ?_⟩
  · intro t ht
    have h := (List.mem_filter.mp ht).2
    unfold isPinyinToken at h
    obtain ⟨h1, h2⟩ := Bool.and_eq_true_iff.mp h
    exact ⟨h1, of_decide_eq_true h2⟩
  · calc ((rows.map (fun r => r.headD "")).filter isPinyinToken).length
        ≤ (rows.map (fun r => r.headD "")).length :=
          List.length_filter_le _ _
      _ = rows.length := List.length_map _ _
  · intro r1 r2 r3 hrows
    subst hrows
    have hsplit :
        ([r1, r2, r3, ["？"]].map (fun r => r.headD "")) =
          [r1.headD "", r2.headD "", r3.headD ""] ++ ["？"] := rfl
    rw [hsplit, List.filter_append]
    have hq : List.filter isPinyinToken ["？"] = [] := rfl
    rw [hq, List.append_nil]
    calc (List.filter isPinyinToken
            [r1.headD "", r2.headD "", r3.headD ""]).length
        ≤ ([r1.headD "", r2.headD "", r3.headD ""] : List String).length :=
          List.length_filter_le _ _
      _ = 3 := rfl

def pinC5 : PinyinService :=
  fun s =>
    if s == "你好吗？" then some [["nǐ"], ["hǎo"], ["ma"], ["？"]] else none

/-- C5 witness: a concrete per-character response for "你好吗？" yields the
three filtered tokens joined by single spaces, within the ≤ 3 bound. -/
theorem annotate_token_filter_witness :
    pinC5 "你好吗？" = some [["nǐ"], ["hǎo"], ["ma"], ["？"]]
    ∧ annotate pinC5 "你好吗？" = String.intercalate " " ["nǐ", "hǎo", "ma"]
    ∧ annotate pinC5 "你好吗？" = "nǐ hǎo ma"
    ∧ (["nǐ", "hǎo", "ma"] : List String).length ≤ 3 :=
  ⟨rfl,
   (annotate_token_filter pinC5 "你好吗？" [["nǐ"], ["hǎo"], ["ma"], ["？"]]
      ["nǐ", "hǎo", "ma"] rfl (by decide)).1,
   by decide,
   (annotate_token_filter pinC5 "你好吗？" [["nǐ"], ["hǎo"], ["ma"], ["？"]]
      ["nǐ", "hǎo", "ma"] rfl (by decide)).2.2.2 ["nǐ"] ["hǎo"] ["ma"] rfl⟩

/-! ### C8 — annotation failure isolation -/

/-- C8: a transliteration throw never aborts sentence processing: a record
is produced for every segmented sentence (the `chinese` components are
exactly the segmenter's output, in order), and every sentence on which the
transliteration call throws gets the empty pinyin string in its record. -/
theorem processSentences_pinyin_failure_isolated
    (pin : PinyinService) (tr : TranslateService) (s : String) :
    (processSentences pin tr s).map (fun r => r.chinese) = segment s
    ∧ (∀ r ∈ processSentences pin tr s,
       pin r.chinese = none → r.pinyin = "") := by
  constructor
  · simp only [processSentences, List.map_map]
    exact List.map_id'' (fun x => rfl) _
  · intro r hr hnone
    simp only [processSentences, List.mem_map] at hr
    obtain ⟨sent, _, rfl⟩ := hr
    simp only at hnone
    simp [annotate, hnone]

def pinFailC8 : PinyinService := fun _ => none

def trC8 : TranslateService := fun _ => some "hello"

/-- C8 witness: with a throwing transliteration service, the record for a
concrete sentence is still produced, with empty pinyin. -/
theorem processSentences_pinyin_failure_isolated_witness :
    (processSentences pinFailC8 trC8 "你好。").map (fun r => r.chinese) =
        segment "你好。"
    ∧ (Sentence.mk "你好。" "" "hello") ∈ processSentences pinFailC8 trC8 "你好。"
    ∧ pinFailC8 "你好。" = none
    ∧ (Sentence.mk "你好。" "" "hello").pinyin = "" :=
  ⟨(processSentences_pinyin_failure_isolated pinFailC8 trC8 "你好。").1,
   by decide, rfl,
   (processSentences_pinyin_failure_isolated pinFailC8 trC8 "你好。").2 _
     (by decide) rfl⟩

/-! ### C9 — degenerate segmentation input -/

/-- C9: empty or whitespace-only input yields an empty sentence sequence,
not an error. -/
theorem segment_whitespace_empty (s : String)
    (h : ∀ c ∈ s.data, isJsWhitespace c = true) :
    segment s = [] := by
  have hnp : ∀ c ∈ s.data, isPrimaryPunct c = false :=
    fun c hc => ws_not_primary (h c hc)
  have hsp : splitPairs s.data = [(s.data, none)] := no_primary_splitPairs hnp
  have htrim : trimChars s.data = [] := all_ws_trim_nil h
  have hrec : recombine (splitPairs s.data) = [] := by
    rw [hsp]
    simp [recombine, List.filterMap_cons, htrim]
  simp [segment, segmentText, hrec, htrim]

/-- C9 witness: `Segment("")` and `Segment("   ")` both return the empty
sequence. -/
theorem segment_whitespace_empty_witness :
    (∀ c ∈ ("" : String).data, isJsWhitespace c = true)
    ∧ segment "" = []
    ∧ (∀ c ∈ ("   " : String).data, isJsWhitespace c = true)
    ∧ segment "   " = [] :=
  ⟨by decide, segment_whitespace_empty "" (by decide),
   by decide, segment_whitespace_empty "   " (by decide)⟩

end ArticleLearner

namespace ArticleLearner

/-! ### Structure of the capture-group split -/

/-- The capture-group split never returns an empty pair list (JavaScript
`split` always returns at least one element). -/
theorem splitPairs_ne_nil (l : List Char) : splitPairs l ≠ [] := by
  cases l with
  | nil => simp [splitPairs]
  | cons c rest =>
    by_cases hp : isPrimaryPunct c
    · simp [splitPairs, hp]
    · cases h : splitPairs rest with
      | nil => simp [splitPairs, hp, h]
      | cons tp ps =>
        obtain ⟨t, p⟩ := tp
        simp [splitPairs, hp, h]

/-- Concatenating every pair's text and delimiter. -/
def pairsFlatten (ps : List (List Char × Option Char)) : List Char :=
  (ps.map (fun tp => tp.1 ++ tp.2.toList)).flatten

/-- The capture-group split is a decomposition of the input: concatenating
all texts and delimiters reconstructs the original text. -/
theorem splitPairs_flatten (l : List Char) : pairsFlatten (splitPairs l) = l := by
  induction l with
  | nil => rfl
  | cons c rest ih =>
    by_cases hp : isPrimaryPunct c
    · rw [show splitPairs (c :: rest) = ([], some c) :: splitPairs rest from
          by simp [splitPairs, hp]]
      have h1 : pairsFlatten (([], some c) :: splitPairs rest) =
          c :: pairsFlatten (splitPairs rest) := by
        simp [pairsFlatten]
      rw [h1, ih]
    · cases h : splitPairs rest with
      | nil => exact absurd h (splitPairs_ne_nil rest)
      | cons tp ps =>
        obtain ⟨t, p⟩ := tp
        rw [show splitPairs (c :: rest) = ((c :: t), p) :: ps from
            by simp [splitPairs, hp, h]]
        have h1 : pairsFlatten (((c :: t), p) :: ps) =
            c :: pairsFlatten ((t, p) :: ps) := by
          simp [pairsFlatten]
        rw [h1, ← h, ih]

/-- Text segments of the capture-group split contain no primary mark. -/
theorem splitPairs_text_not_primary (l : List Char) :
    ∀ tp ∈ splitPairs l, ∀ c ∈ tp.1, isPrimaryPunct c = false := by
  induction l with
  | nil =>
    intro tp htp c hc
    simp [splitPairs] at htp
    subst htp
    cases hc
  | cons a rest ih =>
    intro tp htp c hc
    by_cases hp : isPrimaryPunct a
    · rw [show splitPairs (a :: rest) = ([], some a) :: splitPairs rest from
          by simp [splitPairs, hp]] at htp
      rcases List.mem_cons.mp htp with rfl | h
      · cases hc
      · exact ih tp h c hc
    · cases hsp : splitPairs rest with
      | nil => exact absurd hsp (splitPairs_ne_nil rest)
      | cons tp0 ps =>
        obtain ⟨t, p⟩ := tp0
        rw [show splitPairs (a :: rest) = ((a :: t), p) :: ps from
            by simp [splitPairs, hp, hsp]] at htp
        rcases List.mem_cons.mp htp with rfl | h
        · rcases List.mem_cons.mp hc with rfl | hct
          · exact Bool.eq_false_iff.mpr hp
          · exact ih (t, p) (by rw [hsp]; exact List.mem_cons_self _ _) c hct
        · exact ih tp (by rw [hsp]; exact List.mem_cons_of_mem _ h) c hc

/-- Delimiters of the capture-group split are primary marks. -/
theorem splitPairs_delim_primary (l : List Char) :
    ∀ tp ∈ splitPairs l, ∀ c, tp.2 = some c → isPrimaryPunct c = true := by
  induction l with
  | nil =>
    intro tp htp c hc
    simp [splitPairs] at htp
    subst htp
    cases hc
  | cons a rest ih =>
    intro tp htp c hc
    by_cases hp : isPrimaryPunct a
    · rw [show splitPairs (a :: rest) = ([], some a) :: splitPairs rest from
          by simp [splitPairs, hp]] at htp
      rcases List.mem_cons.mp htp with rfl | h
      · cases hc
        exact hp
      · exact ih tp h c hc
    · cases hsp : splitPairs rest with
      | nil => exact absurd hsp (splitPairs_ne_nil rest)
      | cons tp0 ps =>
        obtain ⟨t, p⟩ := tp0
        rw [show splitPairs (a :: rest) = ((a :: t), p) :: ps from
            by simp [splitPairs, hp, hsp]] at htp
        rcases List.mem_cons.mp htp with rfl | h
        · exact ih (t, p) (by rw [hsp]; exact List.mem_cons_self _ _) c hc
        · exact ih tp (by rw [hsp]; exact List.mem_cons_of_mem _ h) c hc

/-- Every non-primary character of the input lands in the text of some pair
of the capture-group split. -/
theorem mem_splitPairs_text {l : List Char} {c : Char} (hc : c ∈ l)
    (hnp : isPrimaryPunct c = false) :
    ∃ tp ∈ splitPairs l, c ∈ tp.1 := by
  induction l with
  | nil => cases hc
  | cons a rest ih =>
    by_cases hp : isPrimaryPunct a
    · rcases List.mem_cons.mp hc with rfl | h
      · exact absurd hnp (by simp [hp])
      · obtain ⟨tp, htp, hctp⟩ := ih h
        refine ⟨tp, ?_, hctp⟩
        rw [show splitPairs (a :: rest) = ([], some a) :: splitPairs rest from
            by simp [splitPairs, hp]]
        exact List.mem_cons_of_mem _ htp
    · cases hsp : splitPairs rest with
      | nil => exact absurd hsp (splitPairs_ne_nil rest)
      | cons tp0 ps =>
        obtain ⟨t, p⟩ := tp0
        have heq : splitPairs (a :: rest) = ((a :: t), p) :: ps := by
          simp [splitPairs, hp, hsp]
        rcases List.mem_cons.mp hc with rfl | h
        · exact ⟨((c :: t), p), by rw [heq]; exact List.mem_cons_self _ _,
            List.mem_cons_self _ _⟩
        · obtain ⟨tp, htp, hctp⟩ := ih h
          rw [hsp] at htp
          rcases List.mem_cons.mp htp with rfl | htail
          · exact ⟨((a :: t), p), by rw [heq]; exact List.mem_cons_self _ _,
              List.mem_cons_of_mem _ hctp⟩
          · exact ⟨tp, by rw [heq]; exact List.mem_cons_of_mem _ htail, hctp⟩

/-- Each primary mark of the input terminates exactly one pair: the number
of delimiter-carrying pairs equals the input's primary-mark count. -/
theorem countP_primary_splitPairs (l : List Char) :
    l.countP isPrimaryPunct =
      (splitPairs l).countP (fun tp => tp.2.isSome) := by
  induction l with
  | nil => rfl
  | cons a rest ih =>
    by_cases hp : isPrimaryPunct a
    · rw [show splitPairs (a :: rest) = ([], some a) :: splitPairs rest from
          by simp [splitPairs, hp]]
      rw [List.countP_cons, List.countP_cons]
      simp [hp, ih]
    · cases hsp : splitPairs rest with
      | nil => exact absurd hsp (splitPairs_ne_nil rest)
      | cons tp0 ps =>
        obtain ⟨t, p⟩ := tp0
        rw [show splitPairs (a :: rest) = ((a :: t), p) :: ps from
            by simp [splitPairs, hp, hsp]]
        rw [List.countP_cons, List.countP_cons]
        have hrw : rest.countP isPrimaryPunct =
            ps.countP (fun tp => tp.2.isSome) +
              (if p.isSome then 1 else 0) := by
          rw [ih, hsp, List.countP_cons]
        simp [hp, hrw]

end ArticleLearner

namespace ArticleLearner

/-! ### Counting through the recombination loop -/

/-- The recombination loop emits exactly one sentence per pair whose trimmed
text is non-empty (so a delimiter preceded only by whitespace produces no
sentence). -/
theorem recombine_length (ps : List (List Char × Option Char)) :
    (recombine ps).length =
      ps.countP (fun tp => !(trimChars tp.1).isEmpty) := by
  induction ps with
  | nil => rfl
  | cons tp ps ih =>
    by_cases h : trimChars tp.1 = []
    · rw [show recombine (tp :: ps) = recombine ps from
          by simp [recombine, List.filterMap_cons, h]]
      rw [List.countP_cons]
      simp [h, ih]
    · rw [show recombine (tp :: ps) =
            (trimChars tp.1 ++ tp.2.toList) :: recombine ps from
          by simp [recombine, List.filterMap_cons, h]]
      rw [List.countP_cons]
      simp [h, ih]

/-- Primary marks in the concatenated output of the recombination loop:
exactly one occurrence for every pair with non-whitespace text and a
delimiter — marks are neither duplicated nor dropped there, and no other
primary mark appears. -/
theorem recombine_flatten_countP (ps : List (List Char × Option Char))
    (htext : ∀ tp ∈ ps, ∀ c ∈ tp.1, isPrimaryPunct c = false)
    (hdelim : ∀ tp ∈ ps, ∀ c, tp.2 = some c → isPrimaryPunct c = true) :
    (recombine ps).flatten.countP isPrimaryPunct =
      ps.countP (fun tp => !(trimChars tp.1).isEmpty && tp.2.isSome) := by
  induction ps with
  | nil => rfl
  | cons tp ps ih =>
    have ihh := ih (fun tp' h' => htext tp' (List.mem_cons_of_mem _ h'))
      (fun tp' h' => hdelim tp' (List.mem_cons_of_mem _ h'))
    have htrim0 : (trimChars tp.1).countP isPrimaryPunct = 0 := by
      rw [List.countP_eq_zero]
      intro c hcmem
      have hcf := htext tp (List.mem_cons_self _ _) c (mem_of_mem_trim hcmem)
      simp [hcf]
    by_cases h : trimChars tp.1 = []
    · rw [show recombine (tp :: ps) = recombine ps from
          by simp [recombine, List.filterMap_cons, h]]
      rw [List.countP_cons]
      simp [h, ihh]
    · rw [show recombine (tp :: ps) =
            (trimChars tp.1 ++ tp.2.toList) :: recombine ps from
          by simp [recombine, List.filterMap_cons, h]]
      rw [List.flatten_cons, List.countP_append, List.countP_append, htrim0,
        List.countP_cons]
      cases hp2 : tp.2 with
      | none => simp [ihh, h, hp2]
      | some d =>
        have hd := hdelim tp (List.mem_cons_self _ _) d hp2
        simp [ihh, h, hp2, hd, Option.toList]
        omega

end ArticleLearner

namespace ArticleLearner

/-! ### C2 — punctuation accounting in the segmenter -/

/-- C2 counterexample: on the input "。" the primary mark has no preceding
text — no pair of the split has both non-whitespace text and a delimiter —
yet `Segment` returns the sentence "。" containing the mark, because the
punctuation-only fallback emits the whole trimmed input.  This refutes the
claim, which asserts for every input that such a mark produces no sentence
and that only marks terminating non-empty segments appear in the output. -/
theorem segment_lone_punct_cex :
    segment "。" = ["。"]
    ∧ (splitPairs "。".data).countP
        (fun tp => !(trimChars tp.1).isEmpty && tp.2.isSome) = 0
    ∧ (segmentText "。".data).flatten.countP isPrimaryPunct = 1 :=
  ⟨by decide, by decide, by decide⟩

/-- C2 amended: for every input containing at least one character that is
neither a primary mark nor whitespace (so that the punctuation-only
fallback is not taken), the segmenter is exactly the primary
split-and-recombine pass, and that pass accounts for punctuation precisely:
one sentence per split pair with non-whitespace text (a mark preceded only
by whitespace produces no sentence), the output contains exactly one
primary mark per delimiter-carrying pair with non-whitespace text (never
duplicated, never dropped), the split itself loses nothing (its pieces
reconstruct the input), and every primary mark of the input terminates
exactly one pair. -/
theorem segment_punct_accounting (s : List Char)
    (h : ∃ c ∈ s, isPrimaryPunct c = false ∧ isJsWhitespace c = false) :
    segmentText s = recombine (splitPairs s)
    ∧ (segmentText s).length =
        (splitPairs s).countP (fun tp => !(trimChars tp.1).isEmpty)
    ∧ (segmentText s).flatten.countP isPrimaryPunct =
        (splitPairs s).countP
          (fun tp => !(trimChars tp.1).isEmpty && tp.2.isSome)
    ∧ pairsFlatten (splitPairs s) = s
    ∧ s.countP isPrimaryPunct =
        (splitPairs s).countP (fun tp => tp.2.isSome) := by
  obtain ⟨c, hcs, hnp, hnw⟩ := h
  obtain ⟨tp, htp, hctp⟩ := mem_splitPairs_text hcs hnp
  have htrim : trimChars tp.1 ≠ [] := trim_ne_nil_of_mem hctp hnw
  have hcount :
      0 < (splitPairs s).countP (fun tp => !(trimChars tp.1).isEmpty) := by
    rw [List.countP_pos_iff]
    refine ⟨tp, htp, ?_⟩
    simp [List.isEmpty_eq_false.mpr htrim]
  have hne : recombine (splitPairs s) ≠ [] := by
    rw [← List.length_pos, recombine_length]
    exact hcount
  have hseg : segmentText s = recombine (splitPairs s) := by
    unfold segmentText
    simp [List.isEmpty_eq_false.mpr hne]
  refine ⟨hseg, ?_, ?_, splitPairs_flatten s, countP_primary_splitPairs s⟩
  · rw [hseg, recombine_length]
  · rw [hseg, recombine_flatten_countP _ (splitPairs_text_not_primary s)
      (splitPairs_delim_primary s)]

/-- C2 witness: the accounting at the concrete input "。x。": the leading
mark is preceded only by emptiness and is dropped; the second mark
terminates the non-whitespace segment "x" and appears exactly once. -/
theorem segment_punct_accounting_witness :
    (∃ c ∈ "。x。".data, isPrimaryPunct c = false ∧ isJsWhitespace c = false)
    ∧ segmentText "。x。".data = recombine (splitPairs "。x。".data)
    ∧ (segmentText "。x。".data).flatten.countP isPrimaryPunct =
        (splitPairs "。x。".data).countP
          (fun tp => !(trimChars tp.1).isEmpty && tp.2.isSome)
    ∧ segmentText "。x。".data = [['x', '。']] :=
  ⟨⟨'x', by decide, by decide, by decide⟩,
   (segment_punct_accounting "。x。".data
      ⟨'x', by decide, by decide, by decide⟩).1,
   (segment_punct_accounting "。x。".data
      ⟨'x', by decide, by decide, by decide⟩).2.2.1,
   by decide⟩

end ArticleLearner

namespace ArticleLearner

/-! ### C3 — secondary-delimiter-only input -/

/-- The secondary split never returns an empty list. -/
theorem splitOnSecondary_ne_nil (l : List Char) : splitOnSecondary l ≠ [] := by
  cases l with
  | nil => simp [splitOnSecondary]
  | cons c rest =>
    by_cases hs : isSecondaryDelim c
    · simp [splitOnSecondary, hs]
    · cases h : splitOnSecondary rest with
      | nil => simp [splitOnSecondary, hs, h]
      | cons t ts => simp [splitOnSecondary, hs, h]

/-- Every non-delimiter character of the input lands in some piece of the
secondary split. -/
theorem mem_splitOnSecondary {l : List Char} {c : Char} (hc : c ∈ l)
    (hns : isSecondaryDelim c = false) :
    ∃ p ∈ splitOnSecondary l, c ∈ p := by
  induction l with
  | nil => cases hc
  | cons a rest ih =>
    by_cases hs : isSecondaryDelim a
    · rcases List.mem_cons.mp hc with rfl | h
      · exact absurd hns (by simp [hs])
      · obtain ⟨p, hp, hcp⟩ := ih h
        refine ⟨p, ?_, hcp⟩
        rw [show splitOnSecondary (a :: rest) = [] :: splitOnSecondary rest
            from by simp [splitOnSecondary, hs]]
        exact List.mem_cons_of_mem _ hp
    · cases hsp : splitOnSecondary rest with
      | nil => exact absurd hsp (splitOnSecondary_ne_nil rest)
      | cons t ts =>
        have heq : splitOnSecondary (a :: rest) = (a :: t) :: ts := by
          simp [splitOnSecondary, hs, hsp]
        rcases List.mem_cons.mp hc with rfl | h
        · exact ⟨(c :: t), by rw [heq]; exact List.mem_cons_self _ _,
            List.mem_cons_self _ _⟩
        · obtain ⟨p, hp, hcp⟩ := ih h
          rw [hsp] at hp
          rcases List.mem_cons.mp hp with rfl | htail
          · exact ⟨(a :: p), by rw [heq]; exact List.mem_cons_self _ _,
              List.mem_cons_of_mem _ hcp⟩
          · exact ⟨p, by rw [heq]; exact List.mem_cons_of_mem _ htail, hcp⟩

/-- Modelled from the spec: the sentences yielded by segmentation steps 1–2
in the reading the claim relies on — only segments actually terminated by a
primary punctuation mark count as sentences of the primary split (under
this reading a text without any primary mark, e.g. one of only secondary
delimiters, yields zero primary sentences, matching the claim's example).
The source's recombination loop `recombine` additionally keeps the trailing
unterminated text, against which the claim's two zero-sentence hypotheses
could never hold simultaneously; this definition exists solely to state the
claim's hypothesis. -/
def primaryTerminatedSentences (s : List Char) : List (List Char) :=
  (splitPairs s).filterMap (fun tp =>
    match tp.2 with
    | none => none
    | some d =>
      if (trimChars tp.1).isEmpty then none
      else some (trimChars tp.1 ++ [d]))

/-- C3: for every non-whitespace-only input on which the primary split
yields zero punctuation-terminated sentences and the secondary split
(trimming, discarding empties) also yields zero pieces — e.g. text
consisting only of secondary delimiters — the segmenter returns the whole
trimmed input as a single sentence, not the empty sequence. -/
theorem segment_secondary_only_whole_input (s : List Char)
    (h1 : trimChars s ≠ [])
    (h2 : primaryTerminatedSentences s = [])
    (h3 : ((splitOnSecondary s).map trimChars).filter
            (fun t => !t.isEmpty) = []) :
    segmentText s = [trimChars s] := by
  have hall : ∀ c ∈ s, isSecondaryDelim c = true ∨ isJsWhitespace c = true := by
    intro c hc
    by_cases hsec : isSecondaryDelim c = true
    · exact Or.inl hsec
    · right
      have hsecf : isSecondaryDelim c = false := by
        cases hx : isSecondaryDelim c
        · rfl
        · exact absurd hx hsec
      obtain ⟨p, hp, hcp⟩ := mem_splitOnSecondary hc hsecf
      have hnil : trimChars p = [] := by
        have hf := List.filter_eq_nil_iff.mp h3 (trimChars p)
          (List.mem_map_of_mem _ hp)
        by_cases hx : trimChars p = []
        · exact hx
        · exact absurd (by simp [List.isEmpty_eq_false.mpr hx]) hf
      by_cases hwc : isJsWhitespace c = true
      · exact hwc
      · exfalso
        have hwf : isJsWhitespace c = false := by
          cases hx : isJsWhitespace c
          · rfl
          · exact absurd hx hwc
        exact trim_ne_nil_of_mem hcp hwf hnil
  have hnp : ∀ c ∈ s, isPrimaryPunct c = false := by
    intro c hc
    rcases hall c hc with hs | hw
    · exact secondary_not_primary hs
    · exact ws_not_primary hw
  have hsp : splitPairs s = [(s, none)] := no_primary_splitPairs hnp
  have hrec : recombine (splitPairs s) = [trimChars s] := by
    rw [hsp]
    simp [recombine, List.filterMap_cons, h1]
  have hne : (recombine (splitPairs s)).isEmpty = false := by
    rw [hrec]
    rfl
  unfold segmentText
  simp [hne, hrec]

/-- C3 witness: the input "，，" (only secondary delimiters) satisfies both
zero-sentence hypotheses and is returned whole, trimmed, as the single
sentence. -/
theorem segment_secondary_only_whole_input_witness :
    trimChars "，，".data ≠ []
    ∧ primaryTerminatedSentences "，，".data = []
    ∧ ((splitOnSecondary "，，".data).map trimChars).filter
        (fun t => !t.isEmpty) = []
    ∧ segmentText "，，".data = [trimChars "，，".data] :=
  ⟨by decide, by decide, by decide,
   segment_secondary_only_whole_input "，，".data (by decide) (by decide)
     (by decide)⟩

end ArticleLearner
